import Mathlib

/-!
Shallow embedding of the wabbit front-end (lexer, locations, spans, tokens,
operator-tag conversions, scope environment) together with theorems checking
the specification's claims against it.

Sources embedded: src/location.rs, src/input.rs, src/token.rs, src/lexer.rs,
src/opts_handle.rs (operator enums), src/context.rs.  The module src/error.rs
is declared in lib.rs but its file is not part of the sources; the error
types are modelled from the spec (see the doc comments below).

Modelling conventions:
 - Rust `usize` arithmetic is `Nat`; a `usize` subtraction that would
   underflow (a debug-profile panic / release-profile capacity-overflow abort
   in the places it occurs here) is modelled by an `Option` result (`none`).
 - `i32` parsing of a digit run models `str::parse::<i32>` exactly: the run
   is unsigned, so parsing succeeds iff the value is at most 2147483647, and
   the `unwrap` on the failure case is a panic.
 - `f64` literal payloads are modelled by their exact rational value; on the
   literals the claims mention (such as 1.5) the IEEE value is exact, so the
   model agrees with the code there.
 - A Rust panic/abort is the distinguished outcome `panicked`.
-/

namespace Wabbit

/-! ### Character classes (Rust `char` predicates used by src/lexer.rs) -/

/-- Rust `char::is_whitespace`: the Unicode White_Space code points. -/
def isRustWhitespace (c : Char) : Bool :=
  let n := c.toNat
  n == 9 || n == 10 || n == 11 || n == 12 || n == 13 || n == 32 || n == 133 ||
  n == 160 || n == 5760 || (Nat.ble 8192 n && Nat.ble n 8202) || n == 8232 ||
  n == 8233 || n == 8239 || n == 8287 || n == 12288

/-- Rust `char::is_ascii_digit`. -/
def isAsciiDigit (c : Char) : Bool :=
  Nat.ble 48 c.toNat && Nat.ble c.toNat 57

/-- Rust `c.is_ascii_alphabetic() || c == '_'`: the guard of the
name/keyword arm of `Lexer::run`. -/
def isIdentStart (c : Char) : Bool :=
  let n := c.toNat
  (Nat.ble 97 n && Nat.ble n 122) || (Nat.ble 65 n && Nat.ble n 90) || n == 95

/-- Rust `c.is_ascii_alphanumeric() || c == '_'`: the continuation test of
the name/keyword scanning loop. -/
def isIdentCont (c : Char) : Bool :=
  isIdentStart c || isAsciiDigit c

/-! ### src/location.rs -/

/-- A location in the source code (src/location.rs, `struct Loc`). -/
structure Loc where
  line : Nat
  col : Nat
deriving DecidableEq, Repr

/-- `impl Default for Loc`: line 1, column 0. -/
def Loc.start : Loc := ⟨1, 0⟩

/-- `Loc::empty`: the sentinel (0, 0) location. -/
def Loc.empty : Loc := ⟨0, 0⟩

/-- The derived `PartialEq for Loc`: structural field-by-field equality. -/
def locEq (a b : Loc) : Bool :=
  a.line == b.line && a.col == b.col

/-- A span of source code, inclusive of both ends (src/location.rs,
`struct Span`).  The Rust field `end` is spelled `endLoc` (keyword). -/
structure Span where
  start : Loc
  endLoc : Loc
deriving DecidableEq, Repr

/-- `Span::new`. -/
def Span.new (start endLoc : Loc) : Span := ⟨start, endLoc⟩

/-- `Span::is_empty`: both ends equal `Loc::empty`. -/
def Span.isEmpty (s : Span) : Bool :=
  locEq s.start Loc.empty && locEq s.endLoc Loc.empty

/-- `impl Default for Span`: both ends are the empty location. -/
def Span.default : Span := ⟨Loc.empty, Loc.empty⟩

/-- The custom `impl PartialEq for Span`: an empty (default) span compares
equal to any span; otherwise both ends are compared structurally. -/
def spanEq (a b : Span) : Bool :=
  if a.isEmpty || b.isEmpty then true
  else locEq a.start b.start && locEq a.endLoc b.endLoc

/-! ### src/token.rs -/

/-- The kinds of tokens (src/token.rs, `enum TokenKind`).  The `i32` payload
of `Int` is an unbounded `Int` (the lexer only ever produces values in
`[0, 2147483647]`); the `f64` payload of `Float` is its exact rational
value. -/
inductive TokenKind where
  | Name (s : String)
  | Int (i : Int)
  | Float (f : ℚ)
  | Char (c : Char)
  | Bool (b : Bool)
  | Semi
  | Comma
  | Assign
  | LParen
  | RParen
  | LBrace
  | RBrace
  | Not
  | Plus
  | Minus
  | Star
  | Slash
  | Less
  | LessEqual
  | Greater
  | GreaterEqual
  | Equal
  | NotEqual
  | And
  | Or
  | Var
  | Const
  | Print
  | Break
  | Continue
  | If
  | Else
  | While
  | Func
  | Return
deriving DecidableEq, Repr

/-- A token: a kind plus its span (src/token.rs, `struct Token`). -/
structure Token where
  kind : TokenKind
  span : Span
deriving DecidableEq, Repr

/-! ### Error types

The file src/error.rs is declared by lib.rs but is not among the sources. -/

/-- Modelled from the spec: `SyntaxError` (src/error.rs, absent from the
sources): "SyntaxError (lexical/grammatical — UnexpectedChar, UnexpectedEOF,
UnexpectedToken; carries a Span)".  The lexer uses the `UnexpectedChar` and
`UnexpectedEOF` variants, with payloads as used at its call sites. -/
inductive SyntaxError where
  | UnexpectedChar (c : Char)
  | UnexpectedEOF
  | UnexpectedToken
deriving DecidableEq, Repr

/-! ### src/input.rs -/

/-- Error context: a rendered source excerpt and the offending span
(src/input.rs, `struct ErrorContext`). -/
structure ErrorContext where
  extract : String
  span : Span
deriving DecidableEq, Repr

/-- Left-pad a string with spaces to width 4 (the Rust format `{:>4}`). -/
def padLeft4 (s : String) : String :=
  String.mk (List.replicate (4 - s.length) ' ') ++ s

/-- One line of the `ErrorContext::new` fold: the numbered source line
followed by the caret underline.  Returns `none` when the Rust `usize`
subtraction `start - 1` would underflow (column 0) or the caret count
`end - start + 1` would underflow — both abort in the Rust code. -/
def ecLines (span : Span) : Nat → List String → Option String
  | _, [] => some ""
  | i, line :: rest =>
    let curLine := i + span.start.line
    let s := if curLine = span.start.line then span.start.col else 1
    let e := if curLine = span.endLoc.line then span.endLoc.col else line.length
    if s = 0 ∨ e < s then none
    else
      match ecLines span (i + 1) rest with
      | none => none
      | some tail =>
        some (padLeft4 (toString curLine) ++ " | " ++ line ++ "\n     | " ++
          String.mk (List.replicate (s - 1) ' ') ++
          String.mk (List.replicate (e - s + 1) '^') ++ "\n" ++ tail)

/-- Rust `str::split('\n')`: split a character list at every newline,
yielding one more piece than there are newlines. -/
def splitNl : List Char → List (List Char)
  | [] => [[]]
  | c :: cs =>
    if c = '\n' then [] :: splitNl cs
    else
      match splitNl cs with
      | [] => [[c]]
      | h :: t => (c :: h) :: t

/-- `ErrorContext::new` (src/input.rs): slice the source by 1-based line
numbers under the span and render each line with a caret underline.
`none` models the abort paths (the `usize` underflows of
`span.start.line - 1`, `start - 1` and `end - start`). -/
def errorContextNew (src : String) (span : Span) : Option ErrorContext :=
  if src = "" then some ⟨"", span⟩
  else if span.start.line = 0 then none
  else
    match ecLines span 0 ((((splitNl src.data).map String.mk).drop
      (span.start.line - 1)).take (span.endLoc.line - span.start.line + 1)) with
    | none => none
    | some extract => some ⟨extract, span⟩

/-! ### src/lexer.rs -/

/-- Modelled from the spec: `TokenError` (src/error.rs, absent from the
sources).  The lexer's `err` helper builds
`TokenError::SyntaxErr(Box<SyntaxError>, Box<ErrorContext>)`, the only
variant it uses. -/
inductive TokenError where
  | SyntaxErr (e : SyntaxError) (ctx : ErrorContext)
deriving DecidableEq, Repr

/-- Outcome of running the lexer: the token stream, a `TokenError`, or a
Rust panic/abort. -/
inductive LexOutcome where
  | ok (tokens : List Token)
  | err (e : TokenError)
  | panicked
deriving DecidableEq, Repr

/-- `Lexer::next`'s location update: a newline moves to the next line and
resets the column to 0, any other character advances the column. -/
def advance (l : Loc) (c : Char) : Loc :=
  if c = '\n' then ⟨l.line + 1, 0⟩ else ⟨l.line, l.col + 1⟩

/-- Advance a location over a list of consumed characters. -/
def advances (l : Loc) (cs : List Char) : Loc :=
  cs.foldl advance l

/-- The digit-run scanning loop of `Lexer::run` (peek a digit, push it and
consume): returns the consumed digit run and the remaining input. -/
def scanDigits : List Char → List Char × List Char
  | [] => ([], [])
  | c :: cs =>
    if isAsciiDigit c then
      let r := scanDigits cs
      (c :: r.1, r.2)
    else ([], c :: cs)

/-- The identifier scanning loop of `Lexer::run`. -/
def scanIdent : List Char → List Char × List Char
  | [] => ([], [])
  | c :: cs =>
    if isIdentCont c then
      let r := scanIdent cs
      (c :: r.1, r.2)
    else ([], c :: cs)

/-- The line-comment loop of `Lexer::run`: consume characters until a
newline is consumed or the input ends.  Returns (consumed, rest). -/
def skipLine : List Char → List Char × List Char
  | [] => ([], [])
  | c :: cs =>
    if c = '\n' then ([c], cs)
    else
      let r := skipLine cs
      (c :: r.1, r.2)

/-- The block-comment loop of `Lexer::run`: consume characters until a `*`
immediately followed by `/` is consumed, or the input ends (silently).
Returns (consumed, rest). -/
def skipBlock : List Char → List Char × List Char
  | [] => ([], [])
  | c :: cs =>
    if c = '*' ∧ cs.head? = some '/' then ([c, '/'], cs.tail)
    else
      let r := skipBlock cs
      (c :: r.1, r.2)

/-- `str::parse` of an unsigned decimal digit run, as a natural number. -/
def parseDigits (ds : List Char) : Nat :=
  ds.foldl (fun a c => a * 10 + (c.toNat - 48)) 0

/-- The exact rational value of a float literal `intDs . fracDs`
(models `num.parse::<f64>().unwrap()`, which never fails on such runs). -/
def floatVal (intDs fracDs : List Char) : ℚ :=
  (parseDigits intDs : ℚ) + (parseDigits fracDs : ℚ) / (10 : ℚ) ^ fracDs.length

/-- The escape table of the character-literal arm of `Lexer::run`. -/
def escChar (c : Char) : Option Char :=
  if c = 'n' then some '\n'
  else if c = 't' then some '\t'
  else if c = 'r' then some '\r'
  else if c = '\\' then some '\\'
  else if c = '\x27' then some '\x27'
  else none

/-- The keyword table of the name/keyword arm of `Lexer::run`: a scanned
identifier that matches a keyword becomes that keyword's token kind
(`true`/`false` become boolean literals), anything else a `Name`. -/
def keywordOrName (s : String) : TokenKind :=
  if s = "var" then .Var
  else if s = "const" then .Const
  else if s = "print" then .Print
  else if s = "break" then .Break
  else if s = "continue" then .Continue
  else if s = "if" then .If
  else if s = "else" then .Else
  else if s = "while" then .While
  else if s = "func" then .Func
  else if s = "return" then .Return
  else if s = "true" then .Bool true
  else if s = "false" then .Bool false
  else .Name s

/-- The result of one iteration of the `Lexer::run` loop. -/
inductive StepRes where
  | done
  | skip (rest : List Char) (loc : Loc)
  | tok (t : Token) (rest : List Char) (loc : Loc)
  | fail (e : SyntaxError) (loc : Loc)
  | panicked
deriving DecidableEq, Repr

/-- One iteration of the `Lexer::run` loop (src/lexer.rs lines 121-295):
consume the next character (`done` at end of input), then dispatch on it
exactly as the Rust `match` does.  `skip` covers the whitespace and comment
arms, `tok` the token-pushing arms (the token carries the span
`Span::new(start_loc, loc)` built by `Lexer::push`), `fail` the
`self.err(..)` returns (carrying the `self.loc` at the failure), and
`panicked` the `parse::<i32>().unwrap()` overflow panic. -/
def nextStep : List Char → Loc → StepRes
  | [], _ => .done
  | c :: cs, loc =>
    let loc1 := advance loc c
    if isRustWhitespace c then .skip cs loc1
    else if isAsciiDigit c then
      let ds := (scanDigits cs).1
      let rest1 := (scanDigits cs).2
      let locD := advances loc1 ds
      if rest1.head? = some '.' then
        let fs := (scanDigits rest1.tail).1
        let rest3 := (scanDigits rest1.tail).2
        let locF := advances (advance locD '.') fs
        .tok ⟨.Float (floatVal (c :: ds) fs), ⟨loc1, locF⟩⟩ rest3 locF
      else
        let n := parseDigits (c :: ds)
        if n ≤ 2147483647 then .tok ⟨.Int (Int.ofNat n), ⟨loc1, locD⟩⟩ rest1 locD
        else .panicked
    else if c = '\x27' then
      match cs with
      | [] => .fail .UnexpectedEOF loc1
      | c1 :: cs1 =>
        let loc2 := advance loc1 c1
        if c1 = '\\' then
          match cs1 with
          | [] => .fail .UnexpectedEOF loc2
          | c2 :: cs2 =>
            let loc3 := advance loc2 c2
            match escChar c2 with
            | none => .fail (.UnexpectedChar c2) loc3
            | some ch =>
              match cs2 with
              | [] => .fail .UnexpectedEOF loc3
              | c3 :: cs3 =>
                let loc4 := advance loc3 c3
                if c3 = '\x27' then .tok ⟨.Char ch, ⟨loc1, loc4⟩⟩ cs3 loc4
                else .fail (.UnexpectedChar c3) loc4
        else if c1 = '\x27' then .fail (.UnexpectedChar c1) loc2
        else
          match cs1 with
          | [] => .fail .UnexpectedEOF loc2
          | c2 :: cs2 =>
            let loc3 := advance loc2 c2
            if c2 = '\x27' then .tok ⟨.Char c1, ⟨loc1, loc3⟩⟩ cs2 loc3
            else .fail (.UnexpectedChar c2) loc3
    else if isIdentStart c then
      let ids := (scanIdent cs).1
      let rest1 := (scanIdent cs).2
      let locI := advances loc1 ids
      .tok ⟨keywordOrName (String.mk (c :: ids)), ⟨loc1, locI⟩⟩ rest1 locI
    else if c = ';' then .tok ⟨.Semi, ⟨loc1, loc1⟩⟩ cs loc1
    else if c = ',' then .tok ⟨.Comma, ⟨loc1, loc1⟩⟩ cs loc1
    else if c = '(' then .tok ⟨.LParen, ⟨loc1, loc1⟩⟩ cs loc1
    else if c = ')' then .tok ⟨.RParen, ⟨loc1, loc1⟩⟩ cs loc1
    else if c = '\x7b' then .tok ⟨.LBrace, ⟨loc1, loc1⟩⟩ cs loc1
    else if c = '\x7d' then .tok ⟨.RBrace, ⟨loc1, loc1⟩⟩ cs loc1
    else if c = '=' then
      if cs.head? = some '=' then
        .tok ⟨.Equal, ⟨loc1, advance loc1 '='⟩⟩ cs.tail (advance loc1 '=')
      else .tok ⟨.Assign, ⟨loc1, loc1⟩⟩ cs loc1
    else if c = '!' then
      if cs.head? = some '=' then
        .tok ⟨.NotEqual, ⟨loc1, advance loc1 '='⟩⟩ cs.tail (advance loc1 '=')
      else .tok ⟨.Not, ⟨loc1, loc1⟩⟩ cs loc1
    else if c = '+' then .tok ⟨.Plus, ⟨loc1, loc1⟩⟩ cs loc1
    else if c = '-' then .tok ⟨.Minus, ⟨loc1, loc1⟩⟩ cs loc1
    else if c = '*' then .tok ⟨.Star, ⟨loc1, loc1⟩⟩ cs loc1
    else if c = '/' then
      if cs.head? = some '/' then
        let r := skipLine cs.tail
        .skip r.2 (advances (advance loc1 '/') r.1)
      else if cs.head? = some '*' then
        let r := skipBlock cs.tail
        .skip r.2 (advances (advance loc1 '*') r.1)
      else .tok ⟨.Slash, ⟨loc1, loc1⟩⟩ cs loc1
    else if c = '<' then
      if cs.head? = some '=' then
        .tok ⟨.LessEqual, ⟨loc1, advance loc1 '='⟩⟩ cs.tail (advance loc1 '=')
      else .tok ⟨.Less, ⟨loc1, loc1⟩⟩ cs loc1
    else if c = '>' then
      if cs.head? = some '=' then
        .tok ⟨.GreaterEqual, ⟨loc1, advance loc1 '='⟩⟩ cs.tail (advance loc1 '=')
      else .tok ⟨.Greater, ⟨loc1, loc1⟩⟩ cs loc1
    else if c = '&' then
      if cs.head? = some '&' then
        .tok ⟨.And, ⟨loc1, advance loc1 '&'⟩⟩ cs.tail (advance loc1 '&')
      else .fail (.UnexpectedChar c) loc1
    else if c = '|' then
      if cs.head? = some '|' then
        .tok ⟨.Or, ⟨loc1, advance loc1 '|'⟩⟩ cs.tail (advance loc1 '|')
      else .fail (.UnexpectedChar c) loc1
    else .fail (.UnexpectedChar c) loc1

/-- Prepend a token to a successful outcome; errors and panics discard the
tokens pushed so far, as `Lexer::tokenize` returns only the error. -/
def consOk (t : Token) : LexOutcome → LexOutcome
  | .ok ts => .ok (t :: ts)
  | .err e => .err e
  | .panicked => .panicked

/-- The `Lexer::run` loop, driven by `nextStep` with explicit fuel (one unit
per loop iteration; every iteration consumes at least one character, so
`length + 1` units always suffice — see `tokenize`).  A `fail` step builds
the `TokenError` exactly as `Lexer::err` does: a zero-width span
`Span::new(self.loc, self.loc)` passed to `ErrorContext::new` (whose abort
path is `panicked`). -/
def runAuxF (src : String) : Nat → List Char → Loc → LexOutcome
  | 0, _, _ => .panicked
  | fuel + 1, rest, loc =>
    match nextStep rest loc with
    | .done => .ok []
    | .skip rest' loc' => runAuxF src fuel rest' loc'
    | .tok t rest' loc' => consOk t (runAuxF src fuel rest' loc')
    | .fail e eloc =>
      match errorContextNew src (Span.new eloc eloc) with
      | some ctx => .err (.SyntaxErr e ctx)
      | none => .panicked
    | .panicked => .panicked

/-- `Lexer::tokenize`: run the lexer over the whole input starting from
position 0 at the default location (1, 0). -/
def tokenize (src : String) : LexOutcome :=
  runAuxF src (src.data.length + 1) src.data Loc.start

/-- The token-kind sequence of a successful lexer outcome. -/
def lexKinds : LexOutcome → Option (List TokenKind)
  | .ok ts => some (ts.map Token.kind)
  | _ => none

/-- The `SyntaxError` carried by a failing lexer outcome. -/
def lexErrSyntax : LexOutcome → Option SyntaxError
  | .err (.SyntaxErr e _) => some e
  | _ => none

/-! ### src/opts_handle.rs (operator enums) and src/token.rs conversions -/

/-- Binary operators (src/opts_handle.rs, `enum BinOpKind`). -/
inductive BinOpKind where
  | Add | Sub | Mul | Div | Or | And
deriving DecidableEq, Repr

/-- Unary operators (src/opts_handle.rs, `enum UnaryOpKind`). -/
inductive UnaryOpKind where
  | Pos | Neg | Not
deriving DecidableEq, Repr

/-- Comparison operators (src/opts_handle.rs, `enum CompOpKind`). -/
inductive CompOpKind where
  | Lt | Le | Gt | Ge | Eq | Ne
deriving DecidableEq, Repr

/-- `impl From<TokenKind> for BinOpKind` (src/token.rs lines 132-144).
`none` models the catch-all arm, which is `panic!("Invalid token kind")` —
an abort, not a typed error. -/
def binOpKindOfToken : TokenKind → Option BinOpKind
  | .Plus => some .Add
  | .Minus => some .Sub
  | .Star => some .Mul
  | .Slash => some .Div
  | .And => some .And
  | .Or => some .Or
  | _ => none

/-- `impl From<TokenKind> for UnaryOpKind` (src/token.rs lines 147-156).
`none` models the `panic!` catch-all arm. -/
def unaryOpKindOfToken : TokenKind → Option UnaryOpKind
  | .Plus => some .Pos
  | .Minus => some .Neg
  | .Not => some .Not
  | _ => none

/-- `impl From<TokenKind> for CompOpKind` (src/token.rs lines 159-171).
`none` models the `panic!` catch-all arm. -/
def compOpKindOfToken : TokenKind → Option CompOpKind
  | .Less => some .Lt
  | .LessEqual => some .Le
  | .Greater => some .Gt
  | .GreaterEqual => some .Ge
  | .Equal => some .Eq
  | .NotEqual => some .Ne
  | _ => none

/-! ### `impl Display for Token` (src/token.rs lines 71-112) -/

/-- Wrap a rendered payload in the single quotes the `Display`
implementation adds around every token. -/
def quoted (s : String) : String :=
  "\x27" ++ s ++ "\x27"

/-- Rust `{:?}` (shortest round-trippable decimal) for an `f64`, on the
exact-rational model: the exact decimal expansion without trailing zeros,
with at least one fractional digit, and a leading `-` for negatives.  On
values with no terminating decimal expansion (which no `f64` has) it falls
back to the rational's own rendering. -/
def floatRepr (q : ℚ) : String :=
  let a := |q|
  let sign := if q < 0 then "-" else ""
  match (List.range (a.den + 1)).find? (fun k => (10 : ℕ) ^ k % a.den == 0) with
  | some k =>
    let n := (a * (10 : ℚ) ^ k).num.toNat
    if k = 0 then sign ++ toString n ++ ".0"
    else
      let digits := toString (n % 10 ^ k)
      let frac := String.mk (List.replicate (k - digits.length) '0') ++ digits
      sign ++ toString (n / 10 ^ k) ++ "." ++ frac
  | none => sign ++ toString a

/-- `impl Display for Token`: every arm renders the payload (or the fixed
operator/keyword text) wrapped in single quotes. -/
def tokenDisplay (t : Token) : String :=
  match t.kind with
  | .Name s => quoted s
  | .Int i => quoted (toString i)
  | .Float f => quoted (floatRepr f)
  | .Bool b => quoted (toString b)
  | .Char c => quoted (String.mk [c])
  | .Semi => quoted ";"
  | .Comma => quoted ","
  | .Assign => quoted "="
  | .LParen => quoted "("
  | .RParen => quoted ")"
  | .LBrace => quoted "\x7b"
  | .RBrace => quoted "\x7d"
  | .Not => quoted "!"
  | .Plus => quoted "+"
  | .Minus => quoted "-"
  | .Star => quoted "*"
  | .Slash => quoted "/"
  | .Less => quoted "<"
  | .LessEqual => quoted "<="
  | .Greater => quoted ">"
  | .GreaterEqual => quoted ">="
  | .Equal => quoted "=="
  | .NotEqual => quoted "!="
  | .And => quoted "&&"
  | .Or => quoted "||"
  | .Var => quoted "var"
  | .Const => quoted "const"
  | .Print => quoted "print"
  | .Break => quoted "break"
  | .Continue => quoted "continue"
  | .If => quoted "if"
  | .Else => quoted "else"
  | .While => quoted "while"
  | .Func => quoted "func"
  | .Return => quoted "return"

/-! ### src/context.rs -/

/-- A lexical scope (src/context.rs, `struct Scope`): a map of bindings
(modelled as an association list) and a reference to the parent scope
(modelled as an arena index, `none` for the root). -/
structure Scope (T : Type) where
  values : List (String × T)
  parent : Option Nat
deriving DecidableEq, Repr

/-- The environment (src/context.rs, `struct Environment`): the arena of
scopes (modelled as the list of allocations, indexed by position) and the
current-scope reference (modelled as an index). -/
structure Environment (T : Type) where
  arena : List (Scope T)
  current : Nat
deriving DecidableEq, Repr

/-- `Environment::new`: allocate the root scope (no parent) and make it
current. -/
def Environment.new (T : Type) : Environment T :=
  ⟨[⟨[], none⟩], 0⟩

/-- `Environment::enter_scope`: allocate a fresh scope whose parent is the
current scope and switch to it. -/
def enterScope {T : Type} (env : Environment T) : Environment T :=
  ⟨env.arena ++ [⟨[], some env.current⟩], env.arena.length⟩

/-- `Environment::exit_scope`: switch to the current scope's parent; if the
current scope has no parent (the root), do nothing.  (In Rust the current
reference is always a live arena allocation, so the out-of-bounds branch is
unreachable; it is an identity here.) -/
def exitScope {T : Type} (env : Environment T) : Environment T :=
  match env.arena[env.current]? with
  | some sc =>
    match sc.parent with
    | some p => ⟨env.arena, p⟩
    | none => env
  | none => env

/-! ### Specification-level notions used by the claims -/

/-- Whether a character list contains a `*/` block-comment terminator. -/
def hasClose : List Char → Bool
  | [] => false
  | c :: cs => (c == '*' && cs.head? == some '/') || hasClose cs

/-- Strict order on locations: reading order (line, then column). -/
def locLt (a b : Loc) : Prop :=
  a.line < b.line ∨ (a.line = b.line ∧ a.col < b.col)

/-- Non-strict order on locations. -/
def locLe (a b : Loc) : Prop :=
  a.line < b.line ∨ (a.line = b.line ∧ a.col ≤ b.col)

/-- The span ordering invariant of a token sequence starting after location
`l`: every token's span starts strictly after `l`, starts no later than it
ends, and ends strictly before the next token's span starts (so adjacent
spans never overlap). -/
def Chained : Loc → List Token → Prop
  | _, [] => True
  | l, t :: ts => locLt l t.span.start ∧ locLe t.span.start t.span.endLoc ∧
      Chained t.span.endLoc ts

/-- The exact-coverage invariant: the remaining input decomposes, token by
token, into skipped characters (whitespace/comments) followed by the
token's own consumed characters, and each token's span runs exactly from
the location of the first consumed character to the location of the last
one (locations as assigned by `advance`). -/
inductive Covers : Loc → List Char → List Token → Prop
  | nil (loc : Loc) (rest : List Char) : Covers loc rest []
  | cons (loc : Loc) (pre : List Char) (c : Char) (txt rest' : List Char)
      (t : Token) (ts : List Token) :
      t.span.start = advance (advances loc pre) c →
      t.span.endLoc = advances (advance (advances loc pre) c) txt →
      Covers t.span.endLoc rest' ts →
      Covers loc (pre ++ c :: (txt ++ rest')) (t :: ts)

/-! ## Helper lemmas -/

theorem advances_append (l : Loc) (cs ds : List Char) :
    advances l (cs ++ ds) = advances (advances l cs) ds := by
  simp [advances, List.foldl_append]

theorem locLt_advance (l : Loc) (c : Char) : locLt l (advance l c) := by
  by_cases h : c = '\n' <;> simp [locLt, advance, h]

theorem locLe_refl (l : Loc) : locLe l l := by
  simp [locLe]

theorem locLe_trans {a b c : Loc} (h1 : locLe a b) (h2 : locLe b c) :
    locLe a c := by
  unfold locLe at *
  omega

theorem locLt_of_lt_of_le {a b c : Loc} (h1 : locLt a b) (h2 : locLe b c) :
    locLt a c := by
  unfold locLt locLe at *
  omega

theorem locLe_of_lt {a b : Loc} (h : locLt a b) : locLe a b := by
  unfold locLt locLe at *
  omega

theorem locLe_advances (l : Loc) (cs : List Char) : locLe l (advances l cs) := by
  induction cs generalizing l with
  | nil => exact locLe_refl l
  | cons c cs ih =>
    exact locLe_trans (locLe_of_lt (locLt_advance l c)) (ih (advance l c))

theorem scanDigits_append (l : List Char) :
    (scanDigits l).1 ++ (scanDigits l).2 = l := by
  induction l with
  | nil => rfl
  | cons c cs ih => by_cases h : isAsciiDigit c <;> simp [scanDigits, h, ih]

theorem scanDigits_complete (l : List Char)
    (h : ∀ c ∈ l, isAsciiDigit c = true) : scanDigits l = (l, []) := by
  induction l with
  | nil => rfl
  | cons c cs ih =>
    have hc : isAsciiDigit c = true := h c (List.mem_cons_self c cs)
    simp [scanDigits, hc, ih fun x hx => h x (List.mem_cons_of_mem c hx)]

theorem scanDigits_upto_dot (ds r : List Char)
    (h : ∀ c ∈ ds, isAsciiDigit c = true) :
    scanDigits (ds ++ '.' :: r) = (ds, '.' :: r) := by
  induction ds with
  | nil => simp [scanDigits, show isAsciiDigit '.' = false from rfl]
  | cons c cs ih =>
    have hc : isAsciiDigit c = true := h c (List.mem_cons_self c cs)
    simp [scanDigits, hc, ih fun x hx => h x (List.mem_cons_of_mem c hx)]

theorem scanIdent_append (l : List Char) :
    (scanIdent l).1 ++ (scanIdent l).2 = l := by
  induction l with
  | nil => rfl
  | cons c cs ih => by_cases h : isIdentCont c <;> simp [scanIdent, h, ih]

theorem scanIdent_complete (l : List Char)
    (h : ∀ c ∈ l, isIdentCont c = true) : scanIdent l = (l, []) := by
  induction l with
  | nil => rfl
  | cons c cs ih =>
    have hc : isIdentCont c = true := h c (List.mem_cons_self c cs)
    simp [scanIdent, hc, ih fun x hx => h x (List.mem_cons_of_mem c hx)]

theorem skipLine_append (l : List Char) :
    (skipLine l).1 ++ (skipLine l).2 = l := by
  induction l with
  | nil => rfl
  | cons c cs ih => by_cases h : c = '\n' <;> simp [skipLine, h, ih]

theorem skipBlock_append (l : List Char) :
    (skipBlock l).1 ++ (skipBlock l).2 = l := by
  induction l with
  | nil => rfl
  | cons c cs ih =>
    by_cases h : c = '*' ∧ cs.head? = some '/'
    · obtain ⟨rfl, hh⟩ := h
      cases cs with
      | nil => simp at hh
      | cons c2 cs2 =>
        simp at hh
        subst hh
        simp [skipBlock]
    · simp [skipBlock, h, ih]

theorem skipBlock_complete (l : List Char) (h : hasClose l = false) :
    skipBlock l = (l, []) := by
  induction l with
  | nil => rfl
  | cons c cs ih =>
    rw [hasClose] at h
    simp only [Bool.or_eq_false_iff, Bool.and_eq_false_iff] at h
    obtain ⟨h1, h2⟩ := h
    have hcond : ¬(c = '*' ∧ cs.head? = some '/') := by
      intro ⟨ha, hb⟩
      rcases h1 with h1 | h1 <;> simp [ha, hb] at h1
    simp [skipBlock, hcond, ih h2]

theorem identStart_facts {c : Char} (h : isIdentStart c = true) :
    isRustWhitespace c = false ∧ isAsciiDigit c = false ∧ c ≠ '\x27' := by
  refine ⟨?_, ?_, ?_⟩
  · have hn : ¬ isRustWhitespace c = true := by
      intro hw
      simp only [isIdentStart, Bool.or_eq_true, Bool.and_eq_true, Nat.ble_eq,
        beq_iff_eq] at h
      simp only [isRustWhitespace, Bool.or_eq_true, Bool.and_eq_true,
        Nat.ble_eq, beq_iff_eq] at hw
      omega
    simpa using hn
  · have hn : ¬ isAsciiDigit c = true := by
      intro hd
      simp only [isIdentStart, Bool.or_eq_true, Bool.and_eq_true, Nat.ble_eq,
        beq_iff_eq] at h
      simp only [isAsciiDigit, Bool.and_eq_true, Nat.ble_eq] at hd
      omega
    simpa using hn
  · intro hq
    subst hq
    exact absurd h (by decide)

theorem digit_not_ws {c : Char} (h : isAsciiDigit c = true) :
    isRustWhitespace c = false := by
  have hn : ¬ isRustWhitespace c = true := by
    intro hw
    simp only [isAsciiDigit, Bool.and_eq_true, Nat.ble_eq] at h
    simp only [isRustWhitespace, Bool.or_eq_true, Bool.and_eq_true,
      Nat.ble_eq, beq_iff_eq] at hw
    omega
  simpa using hn

theorem runAuxF_step (src : String) (fuel : Nat) (rest : List Char)
    (loc : Loc) :
    runAuxF src (fuel + 1) rest loc =
      match nextStep rest loc with
      | .done => .ok []
      | .skip rest' loc' => runAuxF src fuel rest' loc'
      | .tok t rest' loc' => consOk t (runAuxF src fuel rest' loc')
      | .fail e eloc =>
        match errorContextNew src (Span.new eloc eloc) with
        | some ctx => .err (.SyntaxErr e ctx)
        | none => .panicked
      | .panicked => .panicked := rfl

theorem runAuxF_single (src : String) (rest : List Char) (loc loc' : Loc)
    (t : Token) (m : Nat) (hstep : nextStep rest loc = .tok t [] loc') :
    runAuxF src (m + 2) rest loc = .ok [t] := by
  rw [show m + 2 = (m + 1) + 1 from rfl, runAuxF_step, hstep]
  show consOk t (runAuxF src (m + 1) [] loc') = .ok [t]
  rw [runAuxF_step, show nextStep [] loc' = .done from rfl]
  rfl

theorem tokenize_ident (c : Char) (cs : List Char)
    (h1 : isIdentStart c = true) (h2 : ∀ x ∈ cs, isIdentCont x = true) :
    tokenize (String.mk (c :: cs)) =
      .ok [⟨keywordOrName (String.mk (c :: cs)),
        ⟨advance Loc.start c, advances (advance Loc.start c) cs⟩⟩] := by
  obtain ⟨hw, hd, hq⟩ := identStart_facts h1
  have hstep : nextStep (c :: cs) Loc.start =
      .tok ⟨keywordOrName (String.mk (c :: cs)),
        ⟨advance Loc.start c, advances (advance Loc.start c) cs⟩⟩ []
        (advances (advance Loc.start c) cs) := by
    simp [nextStep, hw, hd, hq, h1, scanIdent_complete cs h2]
  show runAuxF _ ((c :: cs).length + 1) (c :: cs) Loc.start = _
  have hlen : (c :: cs).length + 1 = cs.length + 2 := by simp
  rw [hlen]
  exact runAuxF_single _ _ _ _ _ cs.length hstep

theorem tokenize_digits (c : Char) (cs : List Char)
    (h1 : isAsciiDigit c = true) (h2 : ∀ x ∈ cs, isAsciiDigit x = true)
    (hle : parseDigits (c :: cs) ≤ 2147483647) :
    tokenize (String.mk (c :: cs)) =
      .ok [⟨.Int (Int.ofNat (parseDigits (c :: cs))),
        ⟨advance Loc.start c, advances (advance Loc.start c) cs⟩⟩] := by
  have hw := digit_not_ws h1
  have hstep : nextStep (c :: cs) Loc.start =
      .tok ⟨.Int (Int.ofNat (parseDigits (c :: cs))),
        ⟨advance Loc.start c, advances (advance Loc.start c) cs⟩⟩ []
        (advances (advance Loc.start c) cs) := by
    simp [nextStep, hw, h1, scanDigits_complete cs h2, hle]
  show runAuxF _ ((c :: cs).length + 1) (c :: cs) Loc.start = _
  have hlen : (c :: cs).length + 1 = cs.length + 2 := by simp
  rw [hlen]
  exact runAuxF_single _ _ _ _ _ cs.length hstep

theorem tokenize_float_lit (c : Char) (ds fs : List Char)
    (h1 : isAsciiDigit c = true) (h2 : ∀ x ∈ ds, isAsciiDigit x = true)
    (h3 : ∀ x ∈ fs, isAsciiDigit x = true) :
    tokenize (String.mk (c :: ds ++ '.' :: fs)) =
      .ok [⟨.Float (floatVal (c :: ds) fs),
        ⟨advance Loc.start c,
         advances (advance (advances (advance Loc.start c) ds) '.') fs⟩⟩] := by
  have hw := digit_not_ws h1
  have hstep : nextStep (c :: ds ++ '.' :: fs) Loc.start =
      .tok ⟨.Float (floatVal (c :: ds) fs),
        ⟨advance Loc.start c,
         advances (advance (advances (advance Loc.start c) ds) '.') fs⟩⟩ []
        (advances (advance (advances (advance Loc.start c) ds) '.') fs) := by
    simp [nextStep, hw, h1, scanDigits_upto_dot ds fs h2,
      scanDigits_complete fs h3]
  show runAuxF _ ((c :: ds ++ '.' :: fs).length + 1) (c :: ds ++ '.' :: fs)
    Loc.start = _
  have hlen : (c :: ds ++ '.' :: fs).length + 1 =
      (ds.length + fs.length + 1) + 2 := by
    simp
    omega
  rw [hlen]
  exact runAuxF_single _ _ _ _ _ (ds.length + fs.length + 1) hstep

theorem consOk_eq_err {t : Token} {o : LexOutcome} {e : TokenError} :
    consOk t o = .err e ↔ o = .err e := by
  cases o <;> simp [consOk]

theorem consOk_eq_ok {t : Token} {o : LexOutcome} {ts : List Token} :
    consOk t o = .ok ts ↔ ∃ ts', o = .ok ts' ∧ ts = t :: ts' := by
  cases o with
  | ok ts2 => simp [consOk, eq_comm]
  | err e => simp [consOk]
  | panicked => simp [consOk]

theorem head?_some {α : Type} {cs : List α} {a : α} (h : cs.head? = some a) :
    cs = a :: cs.tail := by
  cases cs <;> simp_all

/-- Every iteration of the lexer loop either sees an empty input (`done`),
consumes a nonempty run of skipped characters (`skip`), consumes a nonempty
run whose token's span stretches exactly from its first consumed character
to its last (`tok`), or fails or panics. -/
theorem nextStep_cases (rest : List Char) (loc : Loc) :
    (rest = [] ∧ nextStep rest loc = .done) ∨
    (∃ con rest' loc', con ≠ [] ∧ rest = con ++ rest' ∧
      loc' = advances loc con ∧ nextStep rest loc = .skip rest' loc') ∨
    (∃ c0 con rest' t, rest = c0 :: (con ++ rest') ∧
      t.span.start = advance loc c0 ∧
      t.span.endLoc = advances (advance loc c0) con ∧
      nextStep rest loc = .tok t rest' t.span.endLoc) ∨
    (∃ e eloc, nextStep rest loc = .fail e eloc) ∨
    nextStep rest loc = .panicked := by
  cases rest with
  | nil => exact Or.inl ⟨rfl, rfl⟩
  | cons c cs =>
    by_cases hw : isRustWhitespace c = true
    · exact Or.inr (Or.inl ⟨[c], cs, advance loc c, by simp, rfl, rfl,
        by simp [nextStep, hw]⟩)
    by_cases hd : isAsciiDigit c = true
    · by_cases hdot : (scanDigits cs).2.head? = some '.'
      · obtain ⟨rest2, hrest2⟩ : ∃ t2, (scanDigits cs).2 = '.' :: t2 :=
          ⟨(scanDigits cs).2.tail, head?_some hdot⟩
        refine Or.inr (Or.inr (Or.inl ⟨c,
          (scanDigits cs).1 ++ '.' :: (scanDigits rest2).1,
          (scanDigits rest2).2,
          ⟨.Float (floatVal (c :: (scanDigits cs).1) (scanDigits rest2).1),
           ⟨advance loc c,
            advances (advance (advances (advance loc c) (scanDigits cs).1) '.')
              (scanDigits rest2).1⟩⟩, ?_, rfl, ?_, ?_⟩))
        · have h1 := scanDigits_append cs
          have h2 := scanDigits_append rest2
          rw [show (scanDigits cs).1 ++ '.' :: (scanDigits rest2).1 ++
              (scanDigits rest2).2 = (scanDigits cs).1 ++
              '.' :: ((scanDigits rest2).1 ++ (scanDigits rest2).2) by simp,
            h2, ← hrest2, h1]
        · show advances (advance (advances (advance loc c) (scanDigits cs).1)
            '.') (scanDigits rest2).1 = advances (advance loc c)
            ((scanDigits cs).1 ++ '.' :: (scanDigits rest2).1)
          rw [advances_append]
          rfl
        · have ht : (scanDigits cs).2.tail = rest2 := by
            rw [hrest2]
            rfl
          simp [nextStep, hw, hd, hdot, ht]
      · by_cases hle : parseDigits (c :: (scanDigits cs).1) ≤ 2147483647
        · refine Or.inr (Or.inr (Or.inl ⟨c, (scanDigits cs).1,
            (scanDigits cs).2,
            ⟨.Int (Int.ofNat (parseDigits (c :: (scanDigits cs).1))),
             ⟨advance loc c, advances (advance loc c) (scanDigits cs).1⟩⟩,
            ?_, rfl, rfl, ?_⟩))
          · rw [scanDigits_append cs]
          · simp [nextStep, hw, hd, hdot, hle]
        · refine Or.inr (Or.inr (Or.inr (Or.inr ?_)))
          simp [nextStep, hw, hd, hdot, hle]
    by_cases hq : c = '\x27'
    · subst hq
      cases cs with
      | nil => exact Or.inr (Or.inr (Or.inr (Or.inl ⟨.UnexpectedEOF, _, rfl⟩)))
      | cons c1 cs1 =>
        by_cases hb : c1 = '\\'
        · subst hb
          cases cs1 with
          | nil =>
            exact Or.inr (Or.inr (Or.inr (Or.inl ⟨.UnexpectedEOF, _, rfl⟩)))
          | cons c2 cs2 =>
            have hred : nextStep ('\x27' :: '\\' :: c2 :: cs2) loc =
                (match escChar c2 with
                | none => .fail (.UnexpectedChar c2)
                    (advance (advance (advance loc '\x27') '\\') c2)
                | some ch =>
                  match cs2 with
                  | [] => .fail .UnexpectedEOF
                      (advance (advance (advance loc '\x27') '\\') c2)
                  | c3 :: cs3 =>
                    if c3 = '\x27' then
                      .tok ⟨.Char ch, ⟨advance loc '\x27',
                        advance (advance (advance (advance loc '\x27') '\\')
                          c2) c3⟩⟩ cs3
                        (advance (advance (advance (advance loc '\x27') '\\')
                          c2) c3)
                    else .fail (.UnexpectedChar c3)
                      (advance (advance (advance (advance loc '\x27') '\\')
                        c2) c3)) := rfl
            cases hesc : escChar c2 with
            | none =>
              refine Or.inr (Or.inr (Or.inr (Or.inl ⟨.UnexpectedChar c2,
                advance (advance (advance loc '\x27') '\\') c2, ?_⟩)))
              rw [hred, hesc]
            | some ch =>
              cases cs2 with
              | nil =>
                refine Or.inr (Or.inr (Or.inr (Or.inl ⟨.UnexpectedEOF,
                  advance (advance (advance loc '\x27') '\\') c2, ?_⟩)))
                rw [hred, hesc]
              | cons c3 cs3 =>
                by_cases hc3 : c3 = '\x27'
                · subst hc3
                  refine Or.inr (Or.inr (Or.inl ⟨'\x27', ['\\', c2, '\x27'],
                    cs3, ⟨.Char ch, ⟨advance loc '\x27',
                      advances (advance loc '\x27') ['\\', c2, '\x27']⟩⟩,
                    rfl, rfl, rfl, ?_⟩))
                  rw [hred, hesc]
                  rfl
                · refine Or.inr (Or.inr (Or.inr (Or.inl ⟨.UnexpectedChar c3,
                    advance (advance (advance (advance loc '\x27') '\\') c2)
                      c3, ?_⟩)))
                  rw [hred, hesc]
                  simp [hc3]
        · by_cases hq2 : c1 = '\x27'
          · subst hq2
            exact Or.inr (Or.inr (Or.inr (Or.inl ⟨.UnexpectedChar '\x27', _,
              rfl⟩)))
          · have hred : nextStep ('\x27' :: c1 :: cs1) loc =
                (if c1 = '\\' then
                  match cs1 with
                  | [] => .fail .UnexpectedEOF (advance (advance loc '\x27') c1)
                  | c2 :: cs2 =>
                    match escChar c2 with
                    | none => .fail (.UnexpectedChar c2)
                        (advance (advance (advance loc '\x27') c1) c2)
                    | some ch =>
                      match cs2 with
                      | [] => .fail .UnexpectedEOF
                          (advance (advance (advance loc '\x27') c1) c2)
                      | c3 :: cs3 =>
                        if c3 = '\x27' then
                          .tok ⟨.Char ch, ⟨advance loc '\x27',
                            advance (advance (advance (advance loc '\x27')
                              c1) c2) c3⟩⟩ cs3
                            (advance (advance (advance (advance loc '\x27')
                              c1) c2) c3)
                        else .fail (.UnexpectedChar c3)
                          (advance (advance (advance (advance loc '\x27')
                            c1) c2) c3)
                else if c1 = '\x27' then
                  .fail (.UnexpectedChar c1) (advance (advance loc '\x27') c1)
                else
                  match cs1 with
                  | [] => .fail .UnexpectedEOF (advance (advance loc '\x27') c1)
                  | c2 :: cs2 =>
                    if c2 = '\x27' then
                      .tok ⟨.Char c1, ⟨advance loc '\x27',
                        advance (advance (advance loc '\x27') c1) c2⟩⟩ cs2
                        (advance (advance (advance loc '\x27') c1) c2)
                    else .fail (.UnexpectedChar c2)
                      (advance (advance (advance loc '\x27') c1) c2)) := rfl
            cases cs1 with
            | nil =>
              refine Or.inr (Or.inr (Or.inr (Or.inl ⟨.UnexpectedEOF,
                advance (advance loc '\x27') c1, ?_⟩)))
              rw [hred]
              simp [hb, hq2]
            | cons c2 cs2 =>
              by_cases hc2 : c2 = '\x27'
              · subst hc2
                refine Or.inr (Or.inr (Or.inl ⟨'\x27', [c1, '\x27'], cs2,
                  ⟨.Char c1, ⟨advance loc '\x27',
                    advances (advance loc '\x27') [c1, '\x27']⟩⟩,
                  rfl, rfl, rfl, ?_⟩))
                rw [hred]
                simp [hb, hq2]
                rfl
              · refine Or.inr (Or.inr (Or.inr (Or.inl ⟨.UnexpectedChar c2,
                  advance (advance (advance loc '\x27') c1) c2, ?_⟩)))
                rw [hred]
                simp [hb, hq2, hc2]
    by_cases hi : isIdentStart c = true
    · refine Or.inr (Or.inr (Or.inl ⟨c, (scanIdent cs).1, (scanIdent cs).2,
        ⟨keywordOrName (String.mk (c :: (scanIdent cs).1)),
         ⟨advance loc c, advances (advance loc c) (scanIdent cs).1⟩⟩,
        ?_, rfl, rfl, ?_⟩))
      · rw [scanIdent_append cs]
      · simp [nextStep, hw, hd, hq, hi]
    by_cases hsemi : c = ';'
    · subst hsemi
      exact Or.inr (Or.inr (Or.inl ⟨';', [], cs,
        ⟨.Semi, ⟨advance loc ';', advances (advance loc ';') []⟩⟩,
        rfl, rfl, rfl, rfl⟩))
    by_cases hcomma : c = ','
    · subst hcomma
      exact Or.inr (Or.inr (Or.inl ⟨',', [], cs,
        ⟨.Comma, ⟨advance loc ',', advances (advance loc ',') []⟩⟩,
        rfl, rfl, rfl, rfl⟩))
    by_cases hlp : c = '('
    · subst hlp
      exact Or.inr (Or.inr (Or.inl ⟨'(', [], cs,
        ⟨.LParen, ⟨advance loc '(', advances (advance loc '(') []⟩⟩,
        rfl, rfl, rfl, rfl⟩))
    by_cases hrp : c = ')'
    · subst hrp
      exact Or.inr (Or.inr (Or.inl ⟨')', [], cs,
        ⟨.RParen, ⟨advance loc ')', advances (advance loc ')') []⟩⟩,
        rfl, rfl, rfl, rfl⟩))
    by_cases hlb : c = '\x7b'
    · subst hlb
      exact Or.inr (Or.inr (Or.inl ⟨'\x7b', [], cs,
        ⟨.LBrace, ⟨advance loc '\x7b', advances (advance loc '\x7b') []⟩⟩,
        rfl, rfl, rfl, rfl⟩))
    by_cases hrb : c = '\x7d'
    · subst hrb
      exact Or.inr (Or.inr (Or.inl ⟨'\x7d', [], cs,
        ⟨.RBrace, ⟨advance loc '\x7d', advances (advance loc '\x7d') []⟩⟩,
        rfl, rfl, rfl, rfl⟩))
    by_cases hassign : c = '='
    · subst hassign
      by_cases hh : cs.head? = some '='
      · refine Or.inr (Or.inr (Or.inl ⟨'=', ['='], cs.tail,
          ⟨.Equal, ⟨advance loc '=', advances (advance loc '=') ['=']⟩⟩,
          ?_, rfl, rfl, ?_⟩))
        · rw [head?_some hh]
          rfl
        · rw [show nextStep ('=' :: cs) loc = (if cs.head? = some '=' then
            StepRes.tok ⟨.Equal, ⟨advance loc '=',
              advance (advance loc '=') '='⟩⟩ cs.tail
              (advance (advance loc '=') '=')
            else .tok ⟨.Assign, ⟨advance loc '=', advance loc '='⟩⟩ cs
              (advance loc '=')) from rfl, if_pos hh]
          rfl
      · refine Or.inr (Or.inr (Or.inl ⟨'=', [], cs,
          ⟨.Assign, ⟨advance loc '=', advances (advance loc '=') []⟩⟩,
          rfl, rfl, rfl, ?_⟩))
        rw [show nextStep ('=' :: cs) loc = (if cs.head? = some '=' then
          StepRes.tok ⟨.Equal, ⟨advance loc '=',
            advance (advance loc '=') '='⟩⟩ cs.tail
            (advance (advance loc '=') '=')
          else .tok ⟨.Assign, ⟨advance loc '=', advance loc '='⟩⟩ cs
            (advance loc '=')) from rfl, if_neg hh]
        rfl
    by_cases hbang : c = '!'
    · subst hbang
      by_cases hh : cs.head? = some '='
      · refine Or.inr (Or.inr (Or.inl ⟨'!', ['='], cs.tail,
          ⟨.NotEqual, ⟨advance loc '!', advances (advance loc '!') ['=']⟩⟩,
          ?_, rfl, rfl, ?_⟩))
        · rw [head?_some hh]
          rfl
        · rw [show nextStep ('!' :: cs) loc = (if cs.head? = some '=' then
            StepRes.tok ⟨.NotEqual, ⟨advance loc '!',
              advance (advance loc '!') '='⟩⟩ cs.tail
              (advance (advance loc '!') '=')
            else .tok ⟨.Not, ⟨advance loc '!', advance loc '!'⟩⟩ cs
              (advance loc '!')) from rfl, if_pos hh]
          rfl
      · refine Or.inr (Or.inr (Or.inl ⟨'!', [], cs,
          ⟨.Not, ⟨advance loc '!', advances (advance loc '!') []⟩⟩,
          rfl, rfl, rfl, ?_⟩))
        rw [show nextStep ('!' :: cs) loc = (if cs.head? = some '=' then
          StepRes.tok ⟨.NotEqual, ⟨advance loc '!',
            advance (advance loc '!') '='⟩⟩ cs.tail
            (advance (advance loc '!') '=')
          else .tok ⟨.Not, ⟨advance loc '!', advance loc '!'⟩⟩ cs
            (advance loc '!')) from rfl, if_neg hh]
        rfl
    by_cases hplus : c = '+'
    · subst hplus
      exact Or.inr (Or.inr (Or.inl ⟨'+', [], cs,
        ⟨.Plus, ⟨advance loc '+', advances (advance loc '+') []⟩⟩,
        rfl, rfl, rfl, rfl⟩))
    by_cases hminus : c = '-'
    · subst hminus
      exact Or.inr (Or.inr (Or.inl ⟨'-', [], cs,
        ⟨.Minus, ⟨advance loc '-', advances (advance loc '-') []⟩⟩,
        rfl, rfl, rfl, rfl⟩))
    by_cases hstar : c = '*'
    · subst hstar
      exact Or.inr (Or.inr (Or.inl ⟨'*', [], cs,
        ⟨.Star, ⟨advance loc '*', advances (advance loc '*') []⟩⟩,
        rfl, rfl, rfl, rfl⟩))
    by_cases hslash : c = '/'
    · subst hslash
      have hred : nextStep ('/' :: cs) loc = (if cs.head? = some '/' then
          StepRes.skip (skipLine cs.tail).2
            (advances (advance (advance loc '/') '/') (skipLine cs.tail).1)
          else if cs.head? = some '*' then
            StepRes.skip (skipBlock cs.tail).2
              (advances (advance (advance loc '/') '*') (skipBlock cs.tail).1)
          else .tok ⟨.Slash, ⟨advance loc '/', advance loc '/'⟩⟩ cs
            (advance loc '/')) := rfl
      by_cases hh : cs.head? = some '/'
      · refine Or.inr (Or.inl ⟨'/' :: '/' :: (skipLine cs.tail).1,
          (skipLine cs.tail).2, _, by simp, ?_, rfl, ?_⟩)
        · rw [head?_some hh]
          simp [skipLine_append cs.tail]
        · rw [hred, if_pos hh]
          rfl
      · by_cases hh2 : cs.head? = some '*'
        · refine Or.inr (Or.inl ⟨'/' :: '*' :: (skipBlock cs.tail).1,
            (skipBlock cs.tail).2, _, by simp, ?_, rfl, ?_⟩)
          · rw [head?_some hh2]
            simp [skipBlock_append cs.tail]
          · rw [hred, if_neg hh, if_pos hh2]
            rfl
        · refine Or.inr (Or.inr (Or.inl ⟨'/', [], cs,
            ⟨.Slash, ⟨advance loc '/', advances (advance loc '/') []⟩⟩,
            rfl, rfl, rfl, ?_⟩))
          rw [hred, if_neg hh, if_neg hh2]
          rfl
    by_cases hlt : c = '<'
    · subst hlt
      by_cases hh : cs.head? = some '='
      · refine Or.inr (Or.inr (Or.inl ⟨'<', ['='], cs.tail,
          ⟨.LessEqual, ⟨advance loc '<', advances (advance loc '<') ['=']⟩⟩,
          ?_, rfl, rfl, ?_⟩))
        · rw [head?_some hh]
          rfl
        · rw [show nextStep ('<' :: cs) loc = (if cs.head? = some '=' then
            StepRes.tok ⟨.LessEqual, ⟨advance loc '<',
              advance (advance loc '<') '='⟩⟩ cs.tail
              (advance (advance loc '<') '=')
            else .tok ⟨.Less, ⟨advance loc '<', advance loc '<'⟩⟩ cs
              (advance loc '<')) from rfl, if_pos hh]
          rfl
      · refine Or.inr (Or.inr (Or.inl ⟨'<', [], cs,
          ⟨.Less, ⟨advance loc '<', advances (advance loc '<') []⟩⟩,
          rfl, rfl, rfl, ?_⟩))
        rw [show nextStep ('<' :: cs) loc = (if cs.head? = some '=' then
          StepRes.tok ⟨.LessEqual, ⟨advance loc '<',
            advance (advance loc '<') '='⟩⟩ cs.tail
            (advance (advance loc '<') '=')
          else .tok ⟨.Less, ⟨advance loc '<', advance loc '<'⟩⟩ cs
            (advance loc '<')) from rfl, if_neg hh]
        rfl
    by_cases hgt : c = '>'
    · subst hgt
      by_cases hh : cs.head? = some '='
      · refine Or.inr (Or.inr (Or.inl ⟨'>', ['='], cs.tail,
          ⟨.GreaterEqual,
           ⟨advance loc '>', advances (advance loc '>') ['=']⟩⟩,
          ?_, rfl, rfl, ?_⟩))
        · rw [head?_some hh]
          rfl
        · rw [show nextStep ('>' :: cs) loc = (if cs.head? = some '=' then
            StepRes.tok ⟨.GreaterEqual, ⟨advance loc '>',
              advance (advance loc '>') '='⟩⟩ cs.tail
              (advance (advance loc '>') '=')
            else .tok ⟨.Greater, ⟨advance loc '>', advance loc '>'⟩⟩ cs
              (advance loc '>')) from rfl, if_pos hh]
          rfl
      · refine Or.inr (Or.inr (Or.inl ⟨'>', [], cs,
          ⟨.Greater, ⟨advance loc '>', advances (advance loc '>') []⟩⟩,
          rfl, rfl, rfl, ?_⟩))
        rw [show nextStep ('>' :: cs) loc = (if cs.head? = some '=' then
          StepRes.tok ⟨.GreaterEqual, ⟨advance loc '>',
            advance (advance loc '>') '='⟩⟩ cs.tail
            (advance (advance loc '>') '=')
          else .tok ⟨.Greater, ⟨advance loc '>', advance loc '>'⟩⟩ cs
            (advance loc '>')) from rfl, if_neg hh]
        rfl
    by_cases hamp : c = '&'
    · subst hamp
      by_cases hh : cs.head? = some '&'
      · refine Or.inr (Or.inr (Or.inl ⟨'&', ['&'], cs.tail,
          ⟨.And, ⟨advance loc '&', advances (advance loc '&') ['&']⟩⟩,
          ?_, rfl, rfl, ?_⟩))
        · rw [head?_some hh]
          rfl
        · rw [show nextStep ('&' :: cs) loc = (if cs.head? = some '&' then
            StepRes.tok ⟨.And, ⟨advance loc '&',
              advance (advance loc '&') '&'⟩⟩ cs.tail
              (advance (advance loc '&') '&')
            else .fail (.UnexpectedChar '&') (advance loc '&')) from rfl,
            if_pos hh]
          rfl
      · refine Or.inr (Or.inr (Or.inr (Or.inl ⟨.UnexpectedChar '&',
          advance loc '&', ?_⟩)))
        rw [show nextStep ('&' :: cs) loc = (if cs.head? = some '&' then
          StepRes.tok ⟨.And, ⟨advance loc '&',
            advance (advance loc '&') '&'⟩⟩ cs.tail
            (advance (advance loc '&') '&')
          else .fail (.UnexpectedChar '&') (advance loc '&')) from rfl,
          if_neg hh]
    by_cases hpipe : c = '|'
    · subst hpipe
      by_cases hh : cs.head? = some '|'
      · refine Or.inr (Or.inr (Or.inl ⟨'|', ['|'], cs.tail,
          ⟨.Or, ⟨advance loc '|', advances (advance loc '|') ['|']⟩⟩,
          ?_, rfl, rfl, ?_⟩))
        · rw [head?_some hh]
          rfl
        · rw [show nextStep ('|' :: cs) loc = (if cs.head? = some '|' then
            StepRes.tok ⟨.Or, ⟨advance loc '|',
              advance (advance loc '|') '|'⟩⟩ cs.tail
              (advance (advance loc '|') '|')
            else .fail (.UnexpectedChar '|') (advance loc '|')) from rfl,
            if_pos hh]
          rfl
      · refine Or.inr (Or.inr (Or.inr (Or.inl ⟨.UnexpectedChar '|',
          advance loc '|', ?_⟩)))
        rw [show nextStep ('|' :: cs) loc = (if cs.head? = some '|' then
          StepRes.tok ⟨.Or, ⟨advance loc '|',
            advance (advance loc '|') '|'⟩⟩ cs.tail
            (advance (advance loc '|') '|')
          else .fail (.UnexpectedChar '|') (advance loc '|')) from rfl,
          if_neg hh]
    · refine Or.inr (Or.inr (Or.inr (Or.inl ⟨.UnexpectedChar c, advance loc c,
        ?_⟩)))
      simp [nextStep, hw, hd, hq, hi, hsemi, hcomma, hlp, hrp, hlb, hrb,
        hassign, hbang, hplus, hminus, hstar, hslash, hlt, hgt, hamp, hpipe]

theorem locLe_lt_trans {a b c : Loc} (h1 : locLe a b) (h2 : locLt b c) :
    locLt a c := by
  unfold locLe locLt at *
  omega

theorem covers_prepend {loc : Loc} {con rest : List Char} {ts : List Token}
    (h : Covers (advances loc con) rest ts) : Covers loc (con ++ rest) ts := by
  cases h with
  | nil => exact Covers.nil loc _
  | cons _ pre c txt rest' t ts hs he hrec =>
    have h2 : Covers loc ((con ++ pre) ++ c :: (txt ++ rest')) (t :: ts) :=
      Covers.cons loc (con ++ pre) c txt rest' t ts
        (by rw [advances_append]; exact hs)
        (by rw [advances_append]; exact he)
        hrec
    simpa [List.append_assoc] using h2

theorem runAuxF_covers (src : String) :
    ∀ (fuel : Nat) (rest : List Char) (loc : Loc) (ts : List Token),
      rest.length < fuel → runAuxF src fuel rest loc = .ok ts →
      Covers loc rest ts := by
  intro fuel
  induction fuel with
  | zero =>
    intro rest loc ts hlen hrun
    omega
  | succ n ih =>
    intro rest loc ts hlen hrun
    rw [runAuxF_step] at hrun
    rcases nextStep_cases rest loc with ⟨hre, heq⟩ |
      ⟨con, rest', loc', hc, hre, hl, heq⟩ |
      ⟨c0, con, rest', t, hre, hs, he, heq⟩ | ⟨e, eloc, heq⟩ | heq <;>
      rw [heq] at hrun
    · have h2 : LexOutcome.ok ([] : List Token) = .ok ts := hrun
      cases h2
      exact Covers.nil loc rest
    · have h2 : runAuxF src n rest' loc' = .ok ts := hrun
      have hlen' : rest'.length < n := by
        have hpos : 0 < con.length := List.length_pos.mpr hc
        have : rest.length = con.length + rest'.length := by
          rw [hre, List.length_append]
        omega
      subst hl
      rw [hre]
      exact covers_prepend (ih rest' _ ts hlen' h2)
    · have h2 : consOk t (runAuxF src n rest' t.span.endLoc) = .ok ts := hrun
      rcases consOk_eq_ok.mp h2 with ⟨ts', hok, hts⟩
      have hlen' : rest'.length < n := by
        have : rest.length = 1 + (con.length + rest'.length) := by
          rw [hre]
          simp [List.length_append]
          omega
        omega
      have hcov := ih rest' _ ts' hlen' hok
      subst hts
      rw [hre]
      have h3 : Covers loc ([] ++ c0 :: (con ++ rest')) (t :: ts') :=
        Covers.cons loc [] c0 con rest' t ts' hs he hcov
      simpa using h3
    · exfalso
      rcases hctx : errorContextNew src (Span.new eloc eloc) with _ | ctx
      · have h3 : LexOutcome.panicked = .ok ts := by
          rw [← hrun]
          show _ = (match errorContextNew src (Span.new eloc eloc) with
            | some ctx => LexOutcome.err (.SyntaxErr e ctx)
            | none => LexOutcome.panicked)
          rw [hctx]
        cases h3
      · have h3 : LexOutcome.err (.SyntaxErr e ctx) = .ok ts := by
          rw [← hrun]
          show _ = (match errorContextNew src (Span.new eloc eloc) with
            | some ctx => LexOutcome.err (.SyntaxErr e ctx)
            | none => LexOutcome.panicked)
          rw [hctx]
        cases h3
    · have h2 : LexOutcome.panicked = .ok ts := hrun
      cases h2

theorem covers_chained : ∀ {loc : Loc} {rest : List Char} {ts : List Token},
    Covers loc rest ts → Chained loc ts := by
  intro loc rest ts h
  induction h with
  | nil => trivial
  | cons loc pre c txt rest' t ts hs he hcov ih =>
    refine ⟨?_, ?_, ih⟩
    · rw [hs]
      exact locLe_lt_trans (locLe_advances loc pre)
        (locLt_advance (advances loc pre) c)
    · rw [hs, he]
      exact locLe_advances _ txt

theorem errorContextNew_span {src : String} {sp : Span} {ctx : ErrorContext}
    (h : errorContextNew src sp = some ctx) : ctx.span = sp := by
  unfold errorContextNew at h
  split at h
  · cases h; rfl
  · split at h
    · cases h
    · split at h
      · cases h
      · cases h; rfl

/-! ## Theorems on the claims -/

/-- C1 (code bug): `tokenize` does not always deliver its declared
`Result` contract.  On the digit run `99999999999`, whose value exceeds the
32-bit signed range, the `num.parse::<i32>().unwrap()` at
src/lexer.rs:153/156 panics; and on a malformed input whose failure
location has column 0 (here: a character literal whose closing-quote
position holds a newline), `ErrorContext::new`'s `start - 1` usize
subtraction aborts.  Both runs end in the `panicked` outcome instead of a
`SyntaxError` result. -/
theorem tokenize_panics_on_overflow_and_col0 :
    tokenize "99999999999" = .panicked ∧
    tokenize (String.mk ['\x27', 'a', '\n']) = .panicked :=
  ⟨by decide, by decide⟩

/-- C2: `tokenize "1 + 2"` is exactly `[Int 1, Plus, Int 2]`,
`tokenize "1.5"` is exactly `[Float 1.5]`, tokenizing a quoted `a` is
exactly `[Char 'a']` and a quoted backslash-n escape is exactly
`[Char '\n']` — no additional tokens in any case. -/
theorem tokenize_literal_examples :
    lexKinds (tokenize "1 + 2") = some [.Int 1, .Plus, .Int 2] ∧
    lexKinds (tokenize "1.5") = some [.Float (1.5 : ℚ)] ∧
    lexKinds (tokenize (String.mk ['\x27', 'a', '\x27'])) = some [.Char 'a'] ∧
    lexKinds (tokenize (String.mk ['\x27', '\\', 'n', '\x27'])) = some [.Char '\n'] := by
  refine ⟨by decide, ?_, by decide, by decide⟩
  have h : tokenize "1.5" = .ok [⟨.Float (floatVal ['1'] ['5']), ⟨⟨1, 1⟩, ⟨1, 3⟩⟩⟩] := rfl
  have hq : floatVal ['1'] ['5'] = (1.5 : ℚ) := by
    norm_num [floatVal, parseDigits, show '1'.toNat = 49 from rfl,
      show '5'.toNat = 53 from rfl]
  rw [h]
  simp [lexKinds, hq]

/-- C3 (code bug): each operator-tag conversion reaches its catch-all arm —
which in the code is `panic!("Invalid token kind: ...")`, an abort modelled
by `none` — on a token kind outside its mapped set, instead of returning a
typed error value. -/
theorem op_conversions_reach_panic_arm :
    binOpKindOfToken .Semi = none ∧ unaryOpKindOfToken .Semi = none ∧
    compOpKindOfToken .Semi = none :=
  ⟨rfl, rfl, rfl⟩

/-- C4 counterexample: the `Display` rendering wraps every payload in
single quotes, so re-tokenizing the rendered text of the token `Int 1`
(which renders as a quoted `1`) yields a single `Char '1'` token — a token
kind different from the original `Int 1`. -/
theorem display_roundtrip_fails_on_int :
    lexKinds (tokenize (tokenDisplay ⟨.Int 1, Span.default⟩)) =
      some [.Char '1'] ∧
    TokenKind.Char '1' ≠ TokenKind.Int 1 :=
  ⟨by decide, by decide⟩

/-- C4 amended: after stripping the enclosing single quotes that `Display`
adds, re-tokenizing the rendered payload text yields a sequence whose sole
element has the original token's kind, for every payload the four kinds
can carry through the lexer: a `Name` whose text is a nonempty identifier
(ASCII letter or underscore, then letters/digits/underscores) not matching
a keyword or boolean literal; an `Int` whose payload is nonnegative (its
rendering is then its decimal digit run, of value at most `i32::MAX`); a
`Bool` (rendered `true`/`false`); and a `Float` whose rendered payload
text has the decimal shape digits-dot-digits with the exact value of the
payload (as the shortest round-trippable `{:?}` rendering produces for
every lexer-made float). -/
theorem display_payload_roundtrip :
    (∀ (c : Char) (cs : List Char), isIdentStart c = true →
      (∀ x ∈ cs, isIdentCont x = true) →
      keywordOrName (String.mk (c :: cs)) = .Name (String.mk (c :: cs)) →
      lexKinds (tokenize (String.mk (c :: cs))) =
        some [.Name (String.mk (c :: cs))]) ∧
    (∀ (c : Char) (cs : List Char) (n : Nat), isAsciiDigit c = true →
      (∀ x ∈ cs, isAsciiDigit x = true) → parseDigits (c :: cs) = n →
      n ≤ 2147483647 →
      lexKinds (tokenize (String.mk (c :: cs))) = some [.Int (Int.ofNat n)]) ∧
    (∀ b : Bool,
      lexKinds (tokenize (if b then "true" else "false")) = some [.Bool b]) ∧
    (∀ (c : Char) (ds fs : List Char) (q : ℚ), isAsciiDigit c = true →
      (∀ x ∈ ds, isAsciiDigit x = true) → (∀ x ∈ fs, isAsciiDigit x = true) →
      q = floatVal (c :: ds) fs →
      lexKinds (tokenize (String.mk (c :: ds ++ '.' :: fs))) =
        some [.Float q]) := by
  refine ⟨?_, ?_, ?_, ?_⟩
  · intro c cs h1 h2 hkw
    rw [tokenize_ident c cs h1 h2, lexKinds, hkw]
    rfl
  · intro c cs n h1 h2 hp hle
    rw [tokenize_digits c cs h1 h2 (hp ▸ hle), lexKinds, hp]
    rfl
  · intro b
    cases b
    · decide
    · decide
  · intro c ds fs q h1 h2 h3 hq
    rw [tokenize_float_lit c ds fs h1 h2 h3, lexKinds, hq]
    rfl

/-- C4 amended witness: the four round-trip branches at the payloads
`x`, `42`, `true` and `1.5`. -/
theorem display_payload_roundtrip_witness :
    lexKinds (tokenize (String.mk ['x'])) = some [.Name (String.mk ['x'])] ∧
    lexKinds (tokenize (String.mk ['4', '2'])) = some [.Int (Int.ofNat 42)] ∧
    lexKinds (tokenize (if true then "true" else "false")) =
      some [.Bool true] ∧
    lexKinds (tokenize (String.mk ('1' :: [] ++ '.' :: ['5']))) =
      some [.Float (floatVal ('1' :: []) ['5'])] :=
  ⟨display_payload_roundtrip.1 'x' [] (by decide) (by decide) (by decide),
   display_payload_roundtrip.2.1 '4' ['2'] 42 (by decide) (by decide)
     (by decide) (by decide),
   display_payload_roundtrip.2.2.1 true,
   display_payload_roundtrip.2.2.2 '1' [] ['5'] (floatVal ('1' :: []) ['5'])
     (by decide) (by decide) (by decide) rfl⟩

/-- C8 counterexample: under the location equality relation (the derived,
structural `PartialEq for Loc`), the sentinel empty location (0, 0) does
not compare equal to the location (1, 1), in either direction. -/
theorem loc_empty_not_wildcard :
    locEq Loc.empty ⟨1, 1⟩ = false ∧ locEq ⟨1, 1⟩ Loc.empty = false := by
  decide

/-- C8 amended: location equality is structural — two locations compare
equal exactly when they are equal, so the empty location equals only
itself.  The wildcard comparison the spec describes lives one level up, on
spans: the default span, both of whose ends are the empty location,
compares equal to every span, and every span compares equal to it. -/
theorem span_empty_wildcard :
    (∀ s : Span, spanEq Span.default s = true ∧ spanEq s Span.default = true) ∧
    (∀ a b : Loc, locEq a b = true ↔ a = b) := by
  constructor
  · intro s
    constructor
    · simp [spanEq, Span.default, Span.isEmpty, locEq, Loc.empty]
    · simp [spanEq, Span.default, Span.isEmpty, locEq, Loc.empty]
  · intro a b
    cases a; cases b
    simp [locEq, Loc.mk.injEq]

/-- C9: entering a scope and then exiting restores the previously current
scope (the current index is restored and, for a well-formed environment,
it still addresses the same scope), and exiting at the root (a current
scope with no parent) is a no-op, not an error. -/
theorem scope_enter_exit :
    (∀ (T : Type) (env : Environment T),
      (exitScope (enterScope env)).current = env.current) ∧
    (∀ (T : Type) (env : Environment T), env.current < env.arena.length →
      (exitScope (enterScope env)).arena[env.current]? =
        env.arena[env.current]?) ∧
    (∀ (T : Type) (env : Environment T) (sc : Scope T),
      env.arena[env.current]? = some sc → sc.parent = none →
      exitScope env = env) := by
  refine ⟨?_, ?_, ?_⟩
  · intro T env
    simp [enterScope, exitScope, List.getElem?_concat_length]
  · intro T env h
    simp [enterScope, exitScope, List.getElem?_concat_length,
      List.getElem?_append_left h]
  · intro T env sc hget hpar
    simp [exitScope, hget, hpar]

theorem runAuxF_block_comment (src : String) (body : List Char) (loc : Loc)
    (m : Nat) (hb : hasClose body = false) :
    runAuxF src (m + 2) ('/' :: '*' :: body) loc = .ok [] := by
  have hstep : nextStep ('/' :: '*' :: body) loc
      = .skip [] (advances (advance (advance loc '/') '*') body) := by
    have h := skipBlock_complete body hb
    calc nextStep ('/' :: '*' :: body) loc
        = .skip (skipBlock body).2
            (advances (advance (advance loc '/') '*') (skipBlock body).1) := rfl
      _ = _ := by rw [h]
  have h1 : runAuxF src (m + 2) ('/' :: '*' :: body) loc
      = runAuxF src (m + 1) [] (advances (advance (advance loc '/') '*') body) := by
    conv_lhs => rw [show m + 2 = (m + 1) + 1 from rfl]
    simp only [runAuxF, hstep]
  rw [h1]
  simp only [runAuxF, nextStep]

/-- C5: for every token sequence that `tokenize` returns successfully, the
input decomposes so that each token's span runs exactly from the location
of the first character consumed for that token to the location of the last
one (`Covers`), and consequently each span's start is at most its end and
adjacent tokens' spans never overlap — each token ends strictly before the
next one starts (`Chained`). -/
theorem tokenize_spans_cover (s : String) (ts : List Token)
    (h : tokenize s = .ok ts) :
    Covers Loc.start s.data ts ∧ Chained Loc.start ts := by
  have hc := runAuxF_covers s (s.data.length + 1) s.data Loc.start ts
    (by omega) h
  exact ⟨hc, covers_chained hc⟩

/-- C5 witness: the span invariants on the concrete run `1 + 2`. -/
theorem tokenize_spans_cover_witness :
    Covers Loc.start ("1 + 2").data
      [⟨.Int 1, ⟨⟨1, 1⟩, ⟨1, 1⟩⟩⟩, ⟨.Plus, ⟨⟨1, 3⟩, ⟨1, 3⟩⟩⟩,
       ⟨.Int 2, ⟨⟨1, 5⟩, ⟨1, 5⟩⟩⟩] ∧
    Chained Loc.start
      [⟨.Int 1, ⟨⟨1, 1⟩, ⟨1, 1⟩⟩⟩, ⟨.Plus, ⟨⟨1, 3⟩, ⟨1, 3⟩⟩⟩,
       ⟨.Int 2, ⟨⟨1, 5⟩, ⟨1, 5⟩⟩⟩] :=
  tokenize_spans_cover "1 + 2"
    [⟨.Int 1, ⟨⟨1, 1⟩, ⟨1, 1⟩⟩⟩, ⟨.Plus, ⟨⟨1, 3⟩, ⟨1, 3⟩⟩⟩,
     ⟨.Int 2, ⟨⟨1, 5⟩, ⟨1, 5⟩⟩⟩] (by decide)

/-- C6: a block comment opened with `/*` that reaches the end of the input
without a closing `*/` is accepted silently: the run returns the tokens
scanned before the comment with no error (here stated both for a pure
unterminated comment, which yields an empty token list for any comment
body free of `*/`, and for a concrete prefixed input). -/
theorem unterminated_block_comment_ok :
    (∀ body : List Char, hasClose body = false →
      tokenize (String.mk ('/' :: '*' :: body)) = .ok []) ∧
    tokenize "1 /* abc" = .ok [⟨.Int 1, ⟨⟨1, 1⟩, ⟨1, 1⟩⟩⟩] := by
  constructor
  · intro body hb
    show runAuxF _ (('/' :: '*' :: body).length + 1) ('/' :: '*' :: body)
      Loc.start = .ok []
    have hlen : ('/' :: '*' :: body).length + 1 = body.length + 1 + 2 := by
      simp
    rw [hlen]
    exact runAuxF_block_comment _ body Loc.start (body.length + 1) hb
  · decide

/-- C6 witness: the unterminated comment rule applied to the concrete
body `abc`. -/
theorem unterminated_block_comment_ok_witness :
    tokenize (String.mk ('/' :: '*' :: ['a', 'b', 'c'])) = .ok [] :=
  unterminated_block_comment_ok.1 ['a', 'b', 'c'] (by decide)

/-- C7: a `&` followed by another `&` produces a single logical-and token
(and `|` likewise a logical-or token), while a `&` (resp. `|`) not followed
by another one fails with `UnexpectedChar`; concretely,
`tokenize "a && b"` is `[Name "a", And, Name "b"]` and `tokenize "a & b"`
fails with `UnexpectedChar '&'`. -/
theorem amp_pipe_pairing :
    (∀ (rest : List Char) (loc : Loc),
      nextStep ('&' :: '&' :: rest) loc =
        .tok ⟨.And, ⟨advance loc '&', advance (advance loc '&') '&'⟩⟩ rest
          (advance (advance loc '&') '&')) ∧
    (∀ (rest : List Char) (loc : Loc), rest.head? ≠ some '&' →
      nextStep ('&' :: rest) loc = .fail (.UnexpectedChar '&') (advance loc '&')) ∧
    (∀ (rest : List Char) (loc : Loc),
      nextStep ('|' :: '|' :: rest) loc =
        .tok ⟨.Or, ⟨advance loc '|', advance (advance loc '|') '|'⟩⟩ rest
          (advance (advance loc '|') '|')) ∧
    (∀ (rest : List Char) (loc : Loc), rest.head? ≠ some '|' →
      nextStep ('|' :: rest) loc = .fail (.UnexpectedChar '|') (advance loc '|')) ∧
    lexKinds (tokenize "a && b") = some [.Name "a", .And, .Name "b"] ∧
    lexErrSyntax (tokenize "a & b") = some (.UnexpectedChar '&') := by
  refine ⟨?_, ?_, ?_, ?_, by decide, by decide⟩
  · intro rest loc
    rfl
  · intro rest loc h
    cases rest with
    | nil => rfl
    | cons x xs =>
      have hx : x ≠ '&' := by simpa using h
      rw [show nextStep ('&' :: x :: xs) loc =
        (if (x :: xs).head? = some '&' then
          StepRes.tok ⟨.And, ⟨advance loc '&', advance (advance loc '&') '&'⟩⟩
            (x :: xs).tail (advance (advance loc '&') '&')
        else .fail (.UnexpectedChar '&') (advance loc '&')) from rfl]
      simp [hx]
  · intro rest loc
    rfl
  · intro rest loc h
    cases rest with
    | nil => rfl
    | cons x xs =>
      have hx : x ≠ '|' := by simpa using h
      rw [show nextStep ('|' :: x :: xs) loc =
        (if (x :: xs).head? = some '|' then
          StepRes.tok ⟨.Or, ⟨advance loc '|', advance (advance loc '|') '|'⟩⟩
            (x :: xs).tail (advance (advance loc '|') '|')
        else .fail (.UnexpectedChar '|') (advance loc '|')) from rfl]
      simp [hx]

/-- C7 witness: the pairing rules at concrete inputs. -/
theorem amp_pipe_pairing_witness :
    nextStep ('&' :: '&' :: ['b']) ⟨1, 0⟩ =
      .tok ⟨.And, ⟨advance ⟨1, 0⟩ '&', advance (advance ⟨1, 0⟩ '&') '&'⟩⟩ ['b']
        (advance (advance ⟨1, 0⟩ '&') '&') ∧
    nextStep ('&' :: [' ']) ⟨1, 0⟩ =
      .fail (.UnexpectedChar '&') (advance ⟨1, 0⟩ '&') ∧
    nextStep ('|' :: [' ']) ⟨1, 0⟩ =
      .fail (.UnexpectedChar '|') (advance ⟨1, 0⟩ '|') :=
  ⟨amp_pipe_pairing.1 ['b'] ⟨1, 0⟩,
   amp_pipe_pairing.2.1 [' '] ⟨1, 0⟩ (by decide),
   amp_pipe_pairing.2.2.2.1 [' '] ⟨1, 0⟩ (by decide)⟩

theorem runAuxF_err_span (src : String) :
    ∀ (fuel : Nat) (rest : List Char) (loc : Loc) (e : SyntaxError)
      (ctx : ErrorContext),
      runAuxF src fuel rest loc = .err (.SyntaxErr e ctx) →
      ctx.span.start = ctx.span.endLoc := by
  intro fuel
  induction fuel with
  | zero =>
    intro rest loc e ctx h
    simp [runAuxF] at h
  | succ n ih =>
    intro rest loc e ctx h
    rw [show n + 1 = n + 1 from rfl] at h
    simp only [runAuxF] at h
    rcases hstep : nextStep rest loc with _ | ⟨rest', loc'⟩ | ⟨t, rest', loc'⟩ |
      ⟨e', eloc⟩ | _ <;> rw [hstep] at h
    · simp at h
    · exact ih rest' loc' e ctx h
    · exact ih rest' loc' e ctx (consOk_eq_err.mp h)
    · have h2 : (match errorContextNew src (Span.new eloc eloc) with
          | some ctx2 => LexOutcome.err (TokenError.SyntaxErr e' ctx2)
          | none => LexOutcome.panicked) = LexOutcome.err (.SyntaxErr e ctx) := h
      rcases hctx : errorContextNew src (Span.new eloc eloc) with _ | ctx2 <;>
        rw [hctx] at h2
      · simp at h2
      · simp only [LexOutcome.err.injEq, TokenError.SyntaxErr.injEq] at h2
        obtain ⟨-, hc⟩ := h2
        have hsp : ctx2.span = Span.new eloc eloc := errorContextNew_span hctx
        rw [← hc, hsp]
        rfl
    · simp at h

/-- C10: every error `tokenize` returns carries an `ErrorContext` whose
span is a single zero-width position — its start and end locations are
equal (they are both the lexer's current location `self.loc` at the point
of failure, by construction of `Lexer::err`), never the extent of a
partially scanned token. -/
theorem lex_errors_zero_width_span (s : String) (e : SyntaxError)
    (ctx : ErrorContext) (h : tokenize s = .err (.SyntaxErr e ctx)) :
    ctx.span.start = ctx.span.endLoc :=
  runAuxF_err_span s _ _ _ e ctx h

/-- C10 witness: the zero-width error span of the failing run on
`a & b`. -/
theorem lex_errors_zero_width_span_witness :
    (Span.mk ⟨1, 3⟩ ⟨1, 3⟩).start = (Span.mk ⟨1, 3⟩ ⟨1, 3⟩).endLoc :=
  lex_errors_zero_width_span "a & b" (.UnexpectedChar '&')
    ⟨"   1 | a & b\n     |   ^\n", ⟨⟨1, 3⟩, ⟨1, 3⟩⟩⟩ (by decide)

/-- C9 witness: the round trip and the root no-op at the fresh
environment. -/
theorem scope_enter_exit_witness :
    (exitScope (enterScope (Environment.new Nat))).current =
      (Environment.new Nat).current ∧
    exitScope (Environment.new Nat) = Environment.new Nat :=
  ⟨scope_enter_exit.1 Nat (Environment.new Nat),
   scope_enter_exit.2.2 Nat (Environment.new Nat) ⟨[], none⟩ rfl rfl⟩

end Wabbit
